import Mathlib

/-!
Verification of the historical-data ingestion pipeline of
`backtest-sell-limit` (fetch, retry, parse, persist, aggregate, gap-fill).

The Go source is shallowly embedded: prices (Go `float64`) are modelled as
rationals because the specified behaviour only copies and compares them;
`time.Time` dates are modelled directly by the Unix-seconds integer that the
code stores (`hd.Date.Unix()`); the SQLite table is a list of rows; SQLite
row-level errors (constraint violations, I/O errors) are abstracted by a
predicate on rows; the HTTP server is abstracted by a function from attempt
number to attempt outcome.
-/

/-- Price values; Go `float64`, modelled as rationals since the pipeline only
copies and compares them. -/
abbrev Price := Rat

/-- One normalized bar (Go struct `types.HistoricalData`); `Date` carries the
Unix-seconds value, which is what `saveHistoricalData` stores via
`hd.Date.Unix()`. -/
structure HistoricalData where
  Symbol : String
  Date : Int
  Open : Price
  High : Price
  Low : Price
  Close : Price
  AdjClose : Price
  Volume : Int
  deriving DecidableEq, Repr

/-- One row of the SQLite table `stock_historical_data` (schema in
`initSPXLDB` / `initDB`: `symbol TEXT, date INTEGER, open REAL, high REAL,
low REAL, close REAL, adj_close REAL, volume INTEGER, PRIMARY KEY (symbol,
date)`).  `adj_close` is nullable: the gap-fill INSERT of part_004 omits the
column, leaving it NULL. -/
structure Row where
  symbol : String
  date : Int
  open' : Price
  high : Price
  low : Price
  close : Price
  adj_close : Option Price
  volume : Int
  deriving DecidableEq, Repr

/-- A table state: the multiset of stored rows, modelled as a list. -/
abbrev Store := List Row

/-- Key-match test against the primary key `(symbol, date)`. -/
def keyIs (s : String) (d : Int) (r : Row) : Bool :=
  r.symbol == s && r.date == d

/-- Does the store contain a row with primary key `(s, d)`? -/
def hasKey (st : Store) (s : String) (d : Int) : Bool :=
  st.any (keyIs s d)

/-- Number of stored rows with primary key `(s, d)`. -/
def keyCount (st : Store) (s : String) (d : Int) : Nat :=
  st.countP (keyIs s d)

/-- The stored row with primary key `(s, d)` (the first such row, which is
the only one whenever the primary-key invariant holds). -/
def rowAt (st : Store) (s : String) (d : Int) : Option Row :=
  st.find? (keyIs s d)

/-- The primary-key invariant enforced by `PRIMARY KEY (symbol, date)`:
no two stored rows share `(symbol, date)`. -/
def UniqueKeys (st : Store) : Prop :=
  ∀ s d, keyCount st s d ≤ 1

/-- Effect of `INSERT OR REPLACE` keyed on `PRIMARY KEY (symbol, date)`:
any existing row with the conflicting key is removed and the new row is
stored. -/
def upsertRow (st : Store) (r : Row) : Store :=
  st.filter (fun x => !(keyIs r.symbol r.date x)) ++ [r]

/-- The row bound by `stmt.Exec(symbol, hd.Date.Unix(), hd.Open, hd.High,
hd.Low, hd.Close, hd.AdjClose, hd.Volume)` in `saveHistoricalData`
(src/unnamed/part_007): the symbol column comes from the function argument,
and `adj_close` is always assigned. -/
def mkRow (symbol : String) (hd : HistoricalData) : Row :=
  { symbol := symbol, date := hd.Date, open' := hd.Open, high := hd.High,
    low := hd.Low, close := hd.Close, adj_close := some hd.AdjClose,
    volume := hd.Volume }

/-- The statement-execution loop of `saveHistoricalData`
(src/unnamed/part_007 lines 260-274), acting on the transaction-local view
of the table.  `fails` abstracts a row-level SQLite error (constraint
violation, I/O error); the first failing row makes the loop return that
row's error, otherwise each row is upserted in order. -/
def execInserts (fails : Row → Bool) (symbol : String) :
    List HistoricalData → Store → Except String Store
  | [], st => .ok st
  | hd :: rest, st =>
      if fails (mkRow symbol hd) then
        .error ("failed to insert historical data for " ++ symbol)
      else
        execInserts fails symbol rest (upsertRow st (mkRow symbol hd))

/-- `saveHistoricalData` of src/unnamed/part_007 (lines 242-282): one
transaction per call; an error return triggers the deferred `tx.Rollback()`,
leaving the store unchanged; otherwise `tx.Commit()` installs all upserts.
Returns the post-call store together with the call's result. -/
def saveHistoricalData (fails : Row → Bool) (db : Store) (symbol : String)
    (data : List HistoricalData) : Store × Except String Unit :=
  match execInserts fails symbol data db with
  | .ok st => (st, .ok ())
  | .error e => (db, .error e)

theorem execInserts_isError (fails : Row → Bool) (symbol : String)
    (data : List HistoricalData) (st : Store)
    (h : ∃ hd ∈ data, fails (mkRow symbol hd) = true) :
    ∃ e, execInserts fails symbol data st = .error e := by
  induction data generalizing st with
  | nil => simp at h
  | cons hd rest ih =>
      by_cases hfh : fails (mkRow symbol hd) = true
      · exact ⟨"failed to insert historical data for " ++ symbol,
          by simp [execInserts, hfh]⟩
      · rcases h with ⟨x, hx, hf⟩
        rcases List.mem_cons.mp hx with rfl | hx
        · exact absurd hf hfh
        · have := ih (upsertRow st (mkRow symbol hd)) ⟨x, hx, hf⟩
          simpa [execInserts, hfh] using this

/-- Claim C2: every bar batch handed to `saveHistoricalData` is written
inside one transaction: if any single bar's insert fails the transaction is
rolled back and the stored rows are unchanged (all-or-nothing per ticker),
and an empty batch commits no row changes and returns success. -/
theorem saveHistoricalData_atomic (fails : Row → Bool) (db : Store)
    (symbol : String) (data : List HistoricalData) :
    ((∃ hd ∈ data, fails (mkRow symbol hd) = true) →
      (saveHistoricalData fails db symbol data).1 = db ∧
      ∃ e, (saveHistoricalData fails db symbol data).2 = Except.error e) ∧
    saveHistoricalData fails db symbol [] = (db, Except.ok ()) := by
  constructor
  · intro h
    obtain ⟨e, he⟩ := execInserts_isError fails symbol data db h
    constructor
    · simp [saveHistoricalData, he]
    · exact ⟨e, by simp [saveHistoricalData, he]⟩
  · rfl

/-- A sample bar used in concrete witnesses. -/
def sampleBar : HistoricalData :=
  { Symbol := "AAPL", Date := 86400, Open := 1, High := 2, Low := 1,
    Close := 2, AdjClose := 2, Volume := 10 }

/-- Witness for Claim C2 at a concrete input: with a row-level error on
every row, saving a one-bar batch leaves the (empty) store unchanged and
reports an error. -/
theorem saveHistoricalData_atomic_witness :
    (saveHistoricalData (fun _ => true) [] "AAPL" [sampleBar]).1 = [] ∧
    ∃ e, (saveHistoricalData (fun _ => true) [] "AAPL" [sampleBar]).2 =
      Except.error e :=
  (saveHistoricalData_atomic (fun _ => true) [] "AAPL" [sampleBar]).1
    ⟨sampleBar, by simp, rfl⟩

/-- The `Quote` element of the vendor envelope
(`chart.result[0].indicators.quote[0]`): parallel arrays of prices and
volumes, not guaranteed equal length. -/
structure QuoteBlock where
  Open : List Price
  High : List Price
  Low : List Price
  Close : List Price
  Volume : List Int
  deriving DecidableEq, Repr

/-- The `Adjclose` element of the vendor envelope
(`chart.result[0].indicators.adjclose[0]`). -/
structure AdjcloseBlock where
  Adjclose : List Price
  deriving DecidableEq, Repr

/-- `chart.result[0].indicators`. -/
structure IndicatorsBlock where
  Quote : List QuoteBlock
  Adjclose : List AdjcloseBlock
  deriving DecidableEq, Repr

/-- One entry of `chart.result`. -/
structure ChartResult where
  Timestamp : List Int
  Indicators : IndicatorsBlock
  deriving DecidableEq, Repr

/-- `chart.error`, when non-null. -/
structure ChartErrorInfo where
  Code : String
  Description : String
  deriving DecidableEq, Repr

/-- The decoded vendor envelope (`yahooResp.Chart`). -/
structure YahooResp where
  Result : List ChartResult
  Error : Option ChartErrorInfo
  deriving DecidableEq, Repr

/-- The body of the parse loop of `fetchHistoricalTickerData`
(src/unnamed/part_007 lines 422-438): index `i` into the parallel arrays is
skipped (`continue`) when it reaches the length of any of the six non-
timestamp arrays, otherwise a bar is built from position `i`. -/
def barAt (ticker : String) (q : QuoteBlock) (a : AdjcloseBlock) (i : Nat)
    (ts : Int) : Option HistoricalData :=
  if i ≥ q.Open.length ∨ i ≥ q.High.length ∨ i ≥ q.Low.length ∨
      i ≥ q.Close.length ∨ i ≥ q.Volume.length ∨ i ≥ a.Adjclose.length then
    none
  else
    some { Symbol := ticker, Date := ts, Open := q.Open.getD i 0,
           High := q.High.getD i 0, Low := q.Low.getD i 0,
           Close := q.Close.getD i 0, AdjClose := a.Adjclose.getD i 0,
           Volume := q.Volume.getD i 0 }

/-- The parse loop: iterate over the timestamp array with its index,
emitting the non-skipped bars in timestamp order. -/
def buildBarsFrom (ticker : String) (q : QuoteBlock) (a : AdjcloseBlock) :
    Nat → List Int → List HistoricalData
  | _, [] => []
  | i, ts :: rest =>
      (barAt ticker q a i ts).toList ++ buildBarsFrom ticker q a (i + 1) rest

/-- The bars produced from a timestamp array and the first quote and
adjclose series. -/
def buildBars (ticker : String) (tss : List Int) (q : QuoteBlock)
    (a : AdjcloseBlock) : List HistoricalData :=
  buildBarsFrom ticker q a 0 tss

/-- The least length among the six non-timestamp parallel arrays. -/
def quoteMin (q : QuoteBlock) (a : AdjcloseBlock) : Nat :=
  min q.Open.length (min q.High.length (min q.Low.length
    (min q.Close.length (min q.Volume.length a.Adjclose.length))))

theorem barAt_spec (ticker : String) (q : QuoteBlock) (a : AdjcloseBlock)
    (i : Nat) (ts : Int) :
    barAt ticker q a i ts =
      if i < quoteMin q a then
        some { Symbol := ticker, Date := ts, Open := q.Open.getD i 0,
               High := q.High.getD i 0, Low := q.Low.getD i 0,
               Close := q.Close.getD i 0, AdjClose := a.Adjclose.getD i 0,
               Volume := q.Volume.getD i 0 }
      else none := by
  unfold barAt quoteMin
  split <;> split <;> first | rfl | omega

theorem buildBarsFrom_length (ticker : String) (q : QuoteBlock)
    (a : AdjcloseBlock) (tss : List Int) (i : Nat) :
    (buildBarsFrom ticker q a i tss).length =
      min tss.length (quoteMin q a - i) := by
  induction tss generalizing i with
  | nil => simp [buildBarsFrom]
  | cons ts rest ih =>
      by_cases h : i < quoteMin q a
      · rw [buildBarsFrom, barAt_spec, if_pos h]
        simp only [Option.toList_some, List.singleton_append,
          List.length_cons, ih]
        omega
      · rw [buildBarsFrom, barAt_spec, if_neg h]
        simp only [Option.toList_none, List.nil_append, List.length_cons, ih]
        omega

theorem buildBarsFrom_dates (ticker : String) (q : QuoteBlock)
    (a : AdjcloseBlock) (tss : List Int) (i : Nat) :
    (buildBarsFrom ticker q a i tss).map (fun b => b.Date) =
      tss.take (quoteMin q a - i) := by
  induction tss generalizing i with
  | nil => simp [buildBarsFrom]
  | cons ts rest ih =>
      by_cases h : i < quoteMin q a
      · rw [buildBarsFrom, barAt_spec, if_pos h]
        have hsucc : quoteMin q a - i = (quoteMin q a - (i + 1)) + 1 := by
          omega
        simp only [List.map_append, Option.toList_some, List.map_cons,
          List.map_nil, ih, hsucc, List.take_succ_cons, List.singleton_append]
      · rw [buildBarsFrom, barAt_spec, if_neg h]
        have h0 : quoteMin q a - i = 0 := by omega
        have h1 : quoteMin q a - (i + 1) = 0 := by omega
        simp [ih, h0, h1]

/-- A quote block with array lengths `[5,5,5,5,3]`, the shape named by the
spec's parser-truncation example. -/
def exampleQuote : QuoteBlock :=
  { Open := [1, 2, 3, 4, 5], High := [1, 2, 3, 4, 5], Low := [1, 2, 3, 4, 5],
    Close := [1, 2, 3, 4, 5], Volume := [10, 20, 30] }

/-- An adjclose series of length 5 for the parser-truncation example. -/
def exampleAdj : AdjcloseBlock := { Adjclose := [1, 2, 3, 4, 5] }

/-- Claim C4: for parallel arrays of unequal lengths the parser emits
exactly the minimum of all seven lengths many bars, in timestamp order,
silently skipping every index past the shortest array; in particular quote
arrays of lengths `[5,5,5,5,3]` with a 5-element timestamp array yield
exactly 3 bars. -/
theorem parser_truncates_to_shortest (ticker : String) (tss : List Int)
    (q : QuoteBlock) (a : AdjcloseBlock) :
    (buildBars ticker tss q a).length =
      min tss.length (min q.Open.length (min q.High.length
        (min q.Low.length (min q.Close.length
          (min q.Volume.length a.Adjclose.length))))) ∧
    (buildBars ticker tss q a).map (fun b => b.Date) =
      tss.take (quoteMin q a) ∧
    (buildBars "X" [11, 12, 13, 14, 15] exampleQuote exampleAdj).length = 3 := by
  refine ⟨?_, ?_, ?_⟩
  · rw [buildBars, buildBarsFrom_length]
    simp [quoteMin]
  · rw [buildBars, buildBarsFrom_dates, Nat.sub_zero]
  · rfl

/-- Outcome of decoding and validating the vendor envelope.
`indexOutOfRange` stands for the Go runtime panic raised by an
out-of-bounds slice access. -/
inductive ParseOutcome where
  | ok (bars : List HistoricalData)
  | parseError (msg : String)
  | indexOutOfRange
  deriving DecidableEq, Repr

/-- The tail of `fetchHistoricalTickerData` after the body has been decoded
(src/unnamed/part_007 lines 404-438): the `chart.error`, empty-`result` and
empty-`quote` checks in source order, then the UNCHECKED access
`result.Indicators.Adjclose[0]`, which in Go panics with an index-out-of-
range error when the adjclose list is empty. -/
def parseYahooResponse (ticker : String) (resp : YahooResp) : ParseOutcome :=
  match resp.Error with
  | some e => .parseError ("API error: " ++ e.Code ++ " - " ++ e.Description)
  | none =>
      match resp.Result with
      | [] => .parseError "no data returned"
      | result :: _ =>
          match result.Indicators.Quote with
          | [] => .parseError "no quote data returned"
          | quote :: _ =>
              match result.Indicators.Adjclose with
              | [] => .indexOutOfRange
              | adjclose :: _ =>
                  .ok (buildBars ticker result.Timestamp quote adjclose)

/-- A vendor envelope with one result and one quote series but an empty
adjclose list: the shape claim C3 says is rejected with a `ParseError`. -/
def adjcloseMissingResp : YahooResp :=
  { Result := [ { Timestamp := [86400],
                  Indicators :=
                    { Quote := [ { Open := [1], High := [1], Low := [1],
                                   Close := [1], Volume := [1] } ],
                      Adjclose := [] } } ],
    Error := none }

/-- A vendor envelope with an empty `chart.result` list. -/
def emptyResultResp : YahooResp := { Result := [], Error := none }

/-- Counterexample to claim C3 as stated: on a response whose adjclose
series is absent, `fetchHistoricalTickerData` does not take the error
branch; it performs the unchecked access `result.Indicators.Adjclose[0]`,
an out-of-bounds index. -/
theorem parse_adjclose_unchecked_cex :
    parseYahooResponse "AAPL" adjcloseMissingResp =
      ParseOutcome.indexOutOfRange := rfl

/-- Claim C3 (amended): the parser validates that the envelope has at least
one result entry and that it has at least one quote series, each absence
being a terminal `ParseError`; it does not validate the adjusted-close
series, and a present result with a quote series but an empty adjclose list
leads to an out-of-bounds index access instead of an error return. -/
theorem parse_envelope_validation (ticker : String) (resp : YahooResp)
    (he : resp.Error = none) :
    (resp.Result = [] →
      parseYahooResponse ticker resp = .parseError "no data returned") ∧
    (∀ result rest, resp.Result = result :: rest →
      result.Indicators.Quote = [] →
      parseYahooResponse ticker resp = .parseError "no quote data returned") ∧
    (∀ result rest quote qrest, resp.Result = result :: rest →
      result.Indicators.Quote = quote :: qrest →
      result.Indicators.Adjclose = [] →
      parseYahooResponse ticker resp = .indexOutOfRange) := by
  refine ⟨?_, ?_, ?_⟩
  · intro h
    simp [parseYahooResponse, he, h]
  · intro result rest hr hq
    simp [parseYahooResponse, he, hr, hq]
  · intro result rest quote qrest hr hq ha
    simp [parseYahooResponse, he, hr, hq, ha]

/-- Witness for claim C3 (amended) at a concrete input: an envelope with no
result entry yields the terminal "no data returned" `ParseError`. -/
theorem parse_envelope_validation_witness :
    parseYahooResponse "AAPL" emptyResultResp =
      ParseOutcome.parseError "no data returned" :=
  (parse_envelope_validation "AAPL" emptyResultResp rfl).1 rfl

/-- What one call to `client.Do` yields: a transport-level error, or a
response bearing a status code. -/
inductive AttemptOutcome where
  | transportError
  | status (code : Nat)
  deriving DecidableEq, Repr

/-- The retry loop of `fetchHistoricalTickerData` (src/unnamed/part_007
lines 321-348): `for i := 0; i < maxRetries; i++`, where `resp i` is the
outcome of the `i`-th attempt.  Transport errors and HTTP 429 retry until
the last allowed attempt and then return their terminal error; any other
non-200 status fails immediately; 200 breaks out.  Returns the number of
attempts made and the loop's result.  (The `else` fallthrough is
unreachable from `i = 0` with `maxRetries = 3`.) -/
def retryLoop (resp : Nat → AttemptOutcome) (maxRetries : Nat) (i : Nat) :
    Nat × Except String Unit :=
  if _h : i < maxRetries then
    match resp i with
    | .transportError =>
        if i = maxRetries - 1 then
          (i + 1, .error ("failed to fetch data after " ++
            toString maxRetries ++ " retries"))
        else retryLoop resp maxRetries (i + 1)
    | .status code =>
        if code = 429 then
          if i = maxRetries - 1 then
            (i + 1, .error ("rate limit exceeded after " ++
              toString maxRetries ++ " retries"))
          else retryLoop resp maxRetries (i + 1)
        else if code ≠ 200 then
          (i + 1, .error ("API request failed with status " ++ toString code))
        else (i + 1, .ok ())
  else (i, .ok ())
termination_by maxRetries - i
decreasing_by all_goals omega

/-- The two SQLite handles the pipeline routes between (globals
`BacktestDB` and `SPXLBacktestDB`, src/unnamed/part_007 lines 19-22). -/
inductive DBHandle where
  | backtest
  | spxl
  deriving DecidableEq, Repr

/-- The contents of both databases. -/
structure World where
  backtest : Store
  spxl : Store
  deriving DecidableEq, Repr

/-- Dereference a handle. -/
def World.get : World → DBHandle → Store
  | w, .backtest => w.backtest
  | w, .spxl => w.spxl

/-- Replace the store behind a handle. -/
def World.set : World → DBHandle → Store → World
  | w, .backtest, st => { w with backtest := st }
  | w, .spxl, st => { w with spxl := st }

/-- One per-ticker result sent over the `results` channel (the anonymous
Go `struct { symbol string; err error }`). -/
structure TickerResult where
  symbol : String
  err : Option String
  deriving DecidableEq, Repr

/-- Destination-store routing inside the worker goroutine
(src/unnamed/part_007 lines 202-206). -/
def dbToSave (tableName s : String) : DBHandle :=
  if tableName = "spxl_tickers" ∨ s = "SPXL" then .spxl else .backtest

/-- The worker goroutine body (src/unnamed/part_007 lines 193-213): fetch,
route, save; each error is wrapped and reported through the ticker's
result, never aborting the batch.  `fetch` abstracts
`fetchHistoricalTickerData` at the call's fixed date range. -/
def processTicker (fetch : String → Except String (List HistoricalData))
    (fails : Row → Bool) (tableName : String) (w : World) (s : String) :
    World × TickerResult :=
  match fetch s with
  | .error e => (w, ⟨s, some ("failed to fetch data: " ++ e)⟩)
  | .ok data =>
      let dbh := dbToSave tableName s
      let saved := saveHistoricalData fails (w.get dbh) s data
      match saved.2 with
      | .ok _ => (w.set dbh saved.1, ⟨s, none⟩)
      | .error e => (w.set dbh saved.1, ⟨s, some ("failed to save data: " ++ e)⟩)

/-- The worker pool, as one representative interleaving: workers operate on
disjoint per-symbol jobs and each result below is proved independent of the
shared state, so any interleaving produces the same result multiset.
Returns the world after all workers and one result per submitted symbol. -/
def runWorkers (fetch : String → Except String (List HistoricalData))
    (fails : Row → Bool) (tableName : String) :
    List String → World → World × List TickerResult
  | [], w => (w, [])
  | s :: rest, w =>
      let step := processTicker fetch fails tableName w s
      let tail := runWorkers fetch fails tableName rest step.1
      (tail.1, step.2 :: tail.2)

/-- The JSON summary assembled at src/unnamed/part_007 lines 230-235. -/
structure Summary where
  status : String
  processed : Nat
  success_count : Nat
  failures : List (String × String)
  deriving DecidableEq, Repr

/-- The aggregation loop over the drained result channel (lines 219-228):
count successes, record failing tickers with their messages (the Go map is
modelled as the association list in insertion order). -/
def aggregateFrom (succ : Nat) (fl : List (String × String)) :
    List TickerResult → Nat × List (String × String)
  | [] => (succ, fl)
  | r :: rest =>
      match r.err with
      | none => aggregateFrom (succ + 1) fl rest
      | some m => aggregateFrom succ (fl ++ [(r.symbol, m)]) rest

/-- Aggregate all results starting from zero successes and no failures. -/
def aggregate (results : List TickerResult) : Nat × List (String × String) :=
  aggregateFrom 0 [] results

/-- Helper for `splitSymbols`: split a character list at every comma,
`acc` holding the current field reversed. -/
def splitCommaAux : List Char → List Char → List String
  | [], acc => [String.mk acc.reverse]
  | c :: rest, acc =>
      if c = ',' then String.mk acc.reverse :: splitCommaAux rest []
      else splitCommaAux rest (c :: acc)

/-- `strings.Split(symbolsParam, ",")`: the fields around each comma, in
order; the empty string yields one empty field. -/
def splitSymbols (symbolsParam : String) : List String :=
  splitCommaAux symbolsParam.data []

/-- Symbol determination in `fillHistoricalDataHandler`
(src/unnamed/part_007 lines 145-165): a non-empty `symbols` parameter is
comma-split as-is; otherwise a non-empty `table_name` is read through
`getSymbolsFromTable` (`tableSyms` abstracts that query's outcome);
otherwise the call fails with HTTP 400. -/
def determineSymbols (symbolsParam tableName : String)
    (tableSyms : Except String (List String)) :
    Except (Nat × String) (List String) :=
  if symbolsParam ≠ "" then .ok (splitSymbols symbolsParam)
  else if tableName ≠ "" then
    match tableSyms with
    | .ok syms => .ok syms
    | .error e =>
        .error (500,
          "Error getting symbols from table " ++ tableName ++ ": " ++ e)
  else .error (400, "Either 'symbols' or 'table_name' parameter is required.")

/-- What the handler sends back: an `http.Error` or the JSON summary. -/
inductive HandlerOutcome where
  | httpError (code : Nat) (msg : String)
  | json (s : Summary)
  deriving DecidableEq, Repr

/-- `fillHistoricalDataHandler` (src/unnamed/part_007 lines 136-239), with
the HTTP request abstracted to its query parameters, the symbol-table query
to `tableSyms`, and the fetch client to `fetch` (the parsed date range only
parameterizes the fetch). -/
def fillHistoricalDataHandler
    (fetch : String → Except String (List HistoricalData))
    (fails : Row → Bool) (symbolsParam tableName : String)
    (tableSyms : Except String (List String)) (w : World) :
    World × HandlerOutcome :=
  match determineSymbols symbolsParam tableName tableSyms with
  | .error (code, msg) => (w, .httpError code msg)
  | .ok symbols =>
      let run := runWorkers fetch fails tableName symbols w
      let agg := aggregate run.2
      (run.1, .json { status := "completed", processed := symbols.length,
                      success_count := agg.1, failures := agg.2 })

/-- The error produced by the first failing row of a batch, if any: what the
insert loop of `saveHistoricalData` reports. -/
def firstFailure (fails : Row → Bool) (symbol : String) :
    List HistoricalData → Option String
  | [] => none
  | hd :: rest =>
      if fails (mkRow symbol hd) then
        some ("failed to insert historical data for " ++ symbol)
      else firstFailure fails symbol rest

theorem execInserts_of_firstFailure_some (fails : Row → Bool)
    (symbol : String) (data : List HistoricalData) (e : String)
    (h : firstFailure fails symbol data = some e) (st : Store) :
    execInserts fails symbol data st = .error e := by
  induction data generalizing st with
  | nil => simp [firstFailure] at h
  | cons hd rest ih =>
      by_cases hf : fails (mkRow symbol hd) = true
      · rw [firstFailure, if_pos hf] at h
        rw [execInserts, if_pos hf]
        exact congrArg Except.error (Option.some.inj h)
      · rw [firstFailure, if_neg hf] at h
        rw [execInserts, if_neg hf]
        exact ih h _

theorem execInserts_of_firstFailure_none (fails : Row → Bool)
    (symbol : String) (data : List HistoricalData)
    (h : firstFailure fails symbol data = none) (st : Store) :
    ∃ st', execInserts fails symbol data st = .ok st' := by
  induction data generalizing st with
  | nil => exact ⟨st, rfl⟩
  | cons hd rest ih =>
      by_cases hf : fails (mkRow symbol hd) = true
      · rw [firstFailure, if_pos hf] at h
        simp at h
      · rw [firstFailure, if_neg hf] at h
        rw [execInserts, if_neg hf]
        exact ih h _

/-- The result (success or error) of a `saveHistoricalData` call depends
only on the batch, never on the contents of the target store. -/
theorem saveHistoricalData_snd (fails : Row → Bool) (db : Store)
    (symbol : String) (data : List HistoricalData) :
    (saveHistoricalData fails db symbol data).2 =
      match firstFailure fails symbol data with
      | none => .ok ()
      | some e => .error e := by
  cases h : firstFailure fails symbol data with
  | none =>
      obtain ⟨st', hst⟩ := execInserts_of_firstFailure_none fails symbol data h db
      simp [saveHistoricalData, hst]
  | some e =>
      have hst := execInserts_of_firstFailure_some fails symbol data e h db
      simp [saveHistoricalData, hst]

/-- The per-ticker outcome (None = success, Some = wrapped error message)
as a function of the ticker alone. -/
def tickerOutcome (fetch : String → Except String (List HistoricalData))
    (fails : Row → Bool) (s : String) : Option String :=
  match fetch s with
  | .error e => some ("failed to fetch data: " ++ e)
  | .ok data =>
      match firstFailure fails s data with
      | none => none
      | some e => some ("failed to save data: " ++ e)

/-- A worker's emitted result is a function of its own ticker only: it does
not depend on the shared store state (and hence not on what other workers
did before it). -/
theorem processTicker_result (fetch : String → Except String (List HistoricalData))
    (fails : Row → Bool) (tableName : String) (w : World) (s : String) :
    (processTicker fetch fails tableName w s).2 =
      ⟨s, tickerOutcome fetch fails s⟩ := by
  cases hf : fetch s with
  | error e => simp [processTicker, tickerOutcome, hf]
  | ok data =>
      have hsnd := saveHistoricalData_snd fails
        (w.get (dbToSave tableName s)) s data
      cases hff : firstFailure fails s data with
      | none =>
          rw [hff] at hsnd
          simp [processTicker, tickerOutcome, hf, hff, hsnd]
      | some e =>
          rw [hff] at hsnd
          simp [processTicker, tickerOutcome, hf, hff, hsnd]

/-- All submitted symbols are processed, each contributing exactly its own
result, independently of the interleaving. -/
theorem runWorkers_results (fetch : String → Except String (List HistoricalData))
    (fails : Row → Bool) (tableName : String) (symbols : List String)
    (w : World) :
    (runWorkers fetch fails tableName symbols w).2 =
      symbols.map (fun s => ⟨s, tickerOutcome fetch fails s⟩) := by
  induction symbols generalizing w with
  | nil => rfl
  | cons s rest ih =>
      simp only [runWorkers, List.map_cons]
      rw [processTicker_result, ih]

theorem aggregateFrom_fst (rs : List TickerResult) :
    ∀ succ fl, (aggregateFrom succ fl rs).1 =
      succ + (rs.filter (fun r => r.err.isNone)).length := by
  induction rs with
  | nil => intro succ fl; simp [aggregateFrom]
  | cons r rest ih =>
      intro succ fl
      cases herr : r.err with
      | none =>
          simp only [aggregateFrom, herr, ih, List.filter_cons]
          simp [herr]
          omega
      | some m =>
          simp only [aggregateFrom, herr, ih, List.filter_cons]
          simp [herr]

theorem aggregateFrom_mem_sub (rs : List TickerResult) :
    ∀ succ fl x, x ∈ fl → x ∈ (aggregateFrom succ fl rs).2 := by
  induction rs with
  | nil => intro succ fl x hx; simpa [aggregateFrom] using hx
  | cons r rest ih =>
      intro succ fl x hx
      cases herr : r.err with
      | none =>
          simp only [aggregateFrom, herr]
          exact ih _ _ _ hx
      | some m =>
          simp only [aggregateFrom, herr]
          exact ih _ _ _ (List.mem_append_left _ hx)

theorem aggregateFrom_mem (rs : List TickerResult) :
    ∀ succ fl r, r ∈ rs → ∀ m, r.err = some m →
      (r.symbol, m) ∈ (aggregateFrom succ fl rs).2 := by
  induction rs with
  | nil => intro _ _ r hr; simp at hr
  | cons r0 rest ih =>
      intro succ fl r hr m hm
      rcases List.mem_cons.mp hr with rfl | hr
      · simp only [aggregateFrom, hm]
        exact aggregateFrom_mem_sub rest _ _ _
          (List.mem_append_right _ (List.mem_singleton_self _))
      · cases herr : r0.err with
        | none =>
            simp only [aggregateFrom, herr]
            exact ih _ _ r hr m hm
        | some m0 =>
            simp only [aggregateFrom, herr]
            exact ih _ _ r hr m hm

theorem mapResults_filter_length
    (fetch : String → Except String (List HistoricalData))
    (fails : Row → Bool) (syms : List String) :
    ((syms.map (fun t => (⟨t, tickerOutcome fetch fails t⟩ : TickerResult))).filter
        (fun r => r.err.isNone)).length =
      (syms.filter (fun t => (tickerOutcome fetch fails t).isNone)).length := by
  rw [← List.countP_eq_length_filter, ← List.countP_eq_length_filter,
    List.countP_map]
  rfl

/-- Claim C1: for every submitted symbol list of length `J`, the handler
produces exactly `J` per-ticker results and replies with a summary whose
status is "completed", whose `processed` is `J`, whose `success_count`
counts the tickers that fetched and persisted successfully, and whose
`failures` contain each failing ticker with its error message; every
ticker's result is a function of that ticker alone (last conjunct), so no
ticker's failure aborts or affects another's processing. -/
theorem fillHistoricalData_summary
    (fetch : String → Except String (List HistoricalData))
    (fails : Row → Bool) (symbolsParam tableName : String)
    (tableSyms : Except String (List String)) (w : World)
    (h : symbolsParam ≠ "") :
    ∃ s : Summary,
      (fillHistoricalDataHandler fetch fails symbolsParam tableName
        tableSyms w).2 = HandlerOutcome.json s ∧
      s.status = "completed" ∧
      s.processed = (splitSymbols symbolsParam).length ∧
      (runWorkers fetch fails tableName (splitSymbols symbolsParam) w).2.length =
        (splitSymbols symbolsParam).length ∧
      s.success_count = ((splitSymbols symbolsParam).filter
        (fun t => (tickerOutcome fetch fails t).isNone)).length ∧
      (∀ t m, t ∈ splitSymbols symbolsParam →
        tickerOutcome fetch fails t = some m → (t, m) ∈ s.failures) ∧
      (runWorkers fetch fails tableName (splitSymbols symbolsParam) w).2 =
        (splitSymbols symbolsParam).map
          (fun t => ⟨t, tickerOutcome fetch fails t⟩) := by
  have hds : determineSymbols symbolsParam tableName tableSyms =
      .ok (splitSymbols symbolsParam) := by
    simp [determineSymbols, h]
  have hres := runWorkers_results fetch fails tableName
    (splitSymbols symbolsParam) w
  refine ⟨{ status := "completed",
            processed := (splitSymbols symbolsParam).length,
            success_count := (aggregate (runWorkers fetch fails tableName
              (splitSymbols symbolsParam) w).2).1,
            failures := (aggregate (runWorkers fetch fails tableName
              (splitSymbols symbolsParam) w).2).2 },
    ?_, rfl, rfl, ?_, ?_, ?_, hres⟩
  · simp [fillHistoricalDataHandler, hds]
  · rw [hres, List.length_map]
  · rw [hres]
    unfold aggregate
    rw [aggregateFrom_fst, mapResults_filter_length, Nat.zero_add]
  · intro t m ht hm
    show (t, m) ∈ (aggregate _).2
    rw [hres]
    have hmem : (⟨t, tickerOutcome fetch fails t⟩ : TickerResult) ∈
        (splitSymbols symbolsParam).map
          (fun u => (⟨u, tickerOutcome fetch fails u⟩ : TickerResult)) :=
      List.mem_map_of_mem _ ht
    have := aggregateFrom_mem _ 0 []
      (⟨t, tickerOutcome fetch fails t⟩ : TickerResult) hmem m hm
    simpa [aggregate] using this

/-- Witness for Claim C1 at the spec's end-to-end scenario: symbols
"AAPL,BAD" where AAPL succeeds and BAD fails with a 404 message. -/
theorem fillHistoricalData_summary_witness :
    ∃ s : Summary,
      (fillHistoricalDataHandler
        (fun t => if t = "BAD" then
            Except.error "API request failed with status 404"
          else Except.ok [sampleBar])
        (fun _ => false) "AAPL,BAD" "" (Except.ok []) ⟨[], []⟩).2 =
        HandlerOutcome.json s ∧
      s.status = "completed" ∧
      s.processed = (splitSymbols "AAPL,BAD").length ∧
      (runWorkers
        (fun t => if t = "BAD" then
            Except.error "API request failed with status 404"
          else Except.ok [sampleBar])
        (fun _ => false) "" (splitSymbols "AAPL,BAD") ⟨[], []⟩).2.length =
        (splitSymbols "AAPL,BAD").length ∧
      s.success_count = ((splitSymbols "AAPL,BAD").filter
        (fun t => (tickerOutcome
          (fun t => if t = "BAD" then
              Except.error "API request failed with status 404"
            else Except.ok [sampleBar]) (fun _ => false) t).isNone)).length ∧
      (∀ t m, t ∈ splitSymbols "AAPL,BAD" →
        tickerOutcome
          (fun t => if t = "BAD" then
              Except.error "API request failed with status 404"
            else Except.ok [sampleBar]) (fun _ => false) t = some m →
          (t, m) ∈ s.failures) ∧
      (runWorkers
        (fun t => if t = "BAD" then
            Except.error "API request failed with status 404"
          else Except.ok [sampleBar])
        (fun _ => false) "" (splitSymbols "AAPL,BAD") ⟨[], []⟩).2 =
        (splitSymbols "AAPL,BAD").map
          (fun t => ⟨t, tickerOutcome
            (fun t => if t = "BAD" then
                Except.error "API request failed with status 404"
              else Except.ok [sampleBar]) (fun _ => false) t⟩) :=
  fillHistoricalData_summary
    (fun t => if t = "BAD" then
        Except.error "API request failed with status 404"
      else Except.ok [sampleBar])
    (fun _ => false) "AAPL,BAD" "" (Except.ok []) ⟨[], []⟩ (by decide)

/-- Claim C6: with `maxRetries = 3`, a request stream returning HTTP 429 on
the first `K` attempts and 200 afterwards makes the retry loop succeed
after exactly `K+1` attempts when `K < 3`, and return the terminal
rate-limit error after exactly 3 attempts when `K ≥ 3`; and a worker whose
fetch errors leaves both stores untouched, so zero bars are written. -/
theorem retry_429_policy (resp : Nat → AttemptOutcome) (K : Nat)
    (h429 : ∀ i, i < K → resp i = .status 429)
    (h200 : ∀ i, K ≤ i → resp i = .status 200) :
    (K < 3 → retryLoop resp 3 0 = (K + 1, Except.ok ())) ∧
    (3 ≤ K → retryLoop resp 3 0 =
      (3, Except.error "rate limit exceeded after 3 retries")) ∧
    (∀ fetch fails tableName w s e,
      fetch s = Except.error e →
      (processTicker fetch fails tableName w s).1 = w) := by
  refine ⟨?_, ?_, ?_⟩
  · intro hK
    interval_cases K
    · have h0 := h200 0 (by omega)
      simp [retryLoop, h0]
    · have h0 := h429 0 (by omega)
      have h1 := h200 1 (by omega)
      simp [retryLoop, h0, h1]
    · have h0 := h429 0 (by omega)
      have h1 := h429 1 (by omega)
      have h2 := h200 2 (by omega)
      simp [retryLoop, h0, h1, h2]
  · intro hK
    have h0 := h429 0 (by omega)
    have h1 := h429 1 (by omega)
    have h2 := h429 2 (by omega)
    simp [retryLoop, h0, h1, h2]
    rfl
  · intro fetch fails tableName w s e hf
    simp [processTicker, hf]

/-- A request stream that is rate-limited exactly twice, then serves 200. -/
def resp429twice : Nat → AttemptOutcome :=
  fun i => if i < 2 then .status 429 else .status 200

/-- Witness for Claim C6 at a concrete stream: two 429s then a 200 give
success on the third attempt. -/
theorem retry_429_policy_witness :
    retryLoop resp429twice 3 0 = (3, Except.ok ()) :=
  (retry_429_policy resp429twice 2
    (fun i hi => by simp [resp429twice, hi])
    (fun i hi => by
      have : ¬ i < 2 := by omega
      simp [resp429twice, this])).1 (by omega)

/-- Counterexample to claim C7 as stated: the symbol list is NOT
deduplicated — `strings.Split("AAPL,AAPL", ",")` is used verbatim, so the
duplicated symbol is scheduled twice. -/
theorem symbols_not_deduplicated_cex :
    determineSymbols "AAPL,AAPL" "" (Except.ok []) =
      Except.ok ["AAPL", "AAPL"] ∧
    ¬ (["AAPL", "AAPL"] : List String).Nodup := by
  constructor
  · rfl
  · decide

/-- Claim C7 (amended): the handler takes the symbols verbatim — the
`symbols` parameter is comma-split with no deduplication (a symbol listed
twice is processed once per occurrence and `processed` counts both), and a
`table_name` query's rows are used exactly as returned; when neither
parameter is supplied the call fails with HTTP 400 and nothing is
processed (the stores are untouched). -/
theorem determineSymbols_policy
    (fetch : String → Except String (List HistoricalData))
    (fails : Row → Bool) (tableSyms : Except String (List String))
    (w : World) :
    (∀ symbolsParam tableName, symbolsParam ≠ "" →
      determineSymbols symbolsParam tableName tableSyms =
        Except.ok (splitSymbols symbolsParam)) ∧
    (∀ tableName syms, tableName ≠ "" →
      determineSymbols "" tableName (Except.ok syms) = Except.ok syms) ∧
    (fillHistoricalDataHandler fetch fails "" "" tableSyms w =
      (w, .httpError 400
        "Either 'symbols' or 'table_name' parameter is required.")) ∧
    (∃ s : Summary,
      (fillHistoricalDataHandler fetch fails "AAPL,AAPL" "" tableSyms w).2 =
        HandlerOutcome.json s ∧ s.processed = 2) := by
  refine ⟨?_, ?_, ?_, ?_⟩
  · intro symbolsParam tableName h
    simp [determineSymbols, h]
  · intro tableName syms h
    simp [determineSymbols, h]
  · rfl
  · have hds : determineSymbols "AAPL,AAPL" "" tableSyms =
        Except.ok ["AAPL", "AAPL"] := rfl
    refine ⟨{ status := "completed", processed := 2,
              success_count := (aggregate (runWorkers fetch fails ""
                ["AAPL", "AAPL"] w).2).1,
              failures := (aggregate (runWorkers fetch fails ""
                ["AAPL", "AAPL"] w).2).2 }, ?_, rfl⟩
    simp [fillHistoricalDataHandler, hds]

/-- Witness for Claim C7 (amended) at concrete inputs: a non-empty symbols
parameter is split verbatim, and with neither parameter the handler
replies HTTP 400 leaving the (empty) stores unchanged. -/
theorem determineSymbols_policy_witness :
    determineSymbols "AAPL" "" (Except.ok []) = Except.ok ["AAPL"] ∧
    fillHistoricalDataHandler (fun _ => Except.ok []) (fun _ => false)
        "" "" (Except.ok []) ⟨[], []⟩ =
      (⟨[], []⟩, .httpError 400
        "Either 'symbols' or 'table_name' parameter is required.") :=
  ⟨((determineSymbols_policy (fun _ => Except.ok []) (fun _ => false)
      (Except.ok []) ⟨[], []⟩).1 "AAPL" "" (by decide)).trans (by rfl),
   (determineSymbols_policy (fun _ => Except.ok []) (fun _ => false)
      (Except.ok []) ⟨[], []⟩).2.2.1⟩

theorem keyIs_eq_true_iff (s : String) (d : Int) (r : Row) :
    keyIs s d r = true ↔ r.symbol = s ∧ r.date = d := by
  simp [keyIs, Bool.and_eq_true, beq_iff_eq]

theorem keyIs_eq_false_iff (s : String) (d : Int) (r : Row) :
    keyIs s d r = false ↔ ¬(r.symbol = s ∧ r.date = d) := by
  rw [← keyIs_eq_true_iff s d r]
  cases keyIs s d r <;> simp

theorem countP_not_add (p : Row → Bool) (l : List Row) :
    l.countP p + l.countP (fun a => !(p a)) = l.length := by
  induction l with
  | nil => simp
  | cons a l ih => by_cases h : p a = true <;> simp [List.countP_cons, h] <;> omega

/-- `INSERT OR REPLACE` sets the count of the written key to one and leaves
every other key's count unchanged. -/
theorem keyCount_upsertRow (st : Store) (r : Row) (s : String) (d : Int) :
    keyCount (upsertRow st r) s d =
      if r.symbol = s ∧ r.date = d then 1 else keyCount st s d := by
  unfold keyCount upsertRow
  rw [List.countP_append, List.countP_filter]
  by_cases h : r.symbol = s ∧ r.date = d
  · rw [if_pos h]
    obtain ⟨hs, hd⟩ := h
    subst hs; subst hd
    have h1 : st.countP (fun a => keyIs r.symbol r.date a &&
        !keyIs r.symbol r.date a) = 0 := by
      simp
    have h2 : List.countP (keyIs r.symbol r.date) [r] = 1 := by
      simp [List.countP_cons, keyIs]
    omega
  · rw [if_neg h]
    have h2 : keyIs s d r = false := (keyIs_eq_false_iff s d r).mpr h
    have hcg : ∀ x ∈ st,
        (keyIs s d x && !keyIs r.symbol r.date x) = true ↔
          keyIs s d x = true := by
      intro x _
      constructor
      · intro hx
        simp only [Bool.and_eq_true] at hx
        exact hx.1
      · intro hx
        have hxk := (keyIs_eq_true_iff s d x).mp hx
        have hfalse : keyIs r.symbol r.date x = false := by
          rw [keyIs_eq_false_iff]
          intro hc
          exact h ⟨hc.1.symm.trans hxk.1, hc.2.symm.trans hxk.2⟩
        rw [hx, hfalse]
        rfl
    rw [List.countP_congr hcg]
    simp [List.countP_cons, h2]

/-- `INSERT OR REPLACE` preserves the primary-key invariant. -/
theorem uniqueKeys_upsertRow (st : Store) (r : Row) (h : UniqueKeys st) :
    UniqueKeys (upsertRow st r) := by
  intro s d
  rw [keyCount_upsertRow]
  split
  · exact le_refl 1
  · exact h s d

theorem find?_filter_of_imp (p q : Row → Bool) (l : List Row)
    (h : ∀ x, p x = true → q x = true) :
    (l.filter q).find? p = l.find? p := by
  induction l with
  | nil => rfl
  | cons a l ih =>
      by_cases hq : q a = true
      · rw [List.filter_cons_of_pos hq]
        by_cases hp : p a = true
        · rw [List.find?_cons_of_pos _ hp, List.find?_cons_of_pos _ hp]
        · rw [List.find?_cons_of_neg _ hp, List.find?_cons_of_neg _ hp, ih]
      · rw [List.filter_cons_of_neg hq]
        have hp : ¬ p a = true := fun hpa => hq (h a hpa)
        rw [List.find?_cons_of_neg _ hp, ih]

/-- `INSERT OR REPLACE`: the written key now resolves to the new row; every
other key resolves as before. -/
theorem rowAt_upsertRow (st : Store) (r : Row) (s : String) (d : Int) :
    rowAt (upsertRow st r) s d =
      if r.symbol = s ∧ r.date = d then some r else rowAt st s d := by
  unfold rowAt upsertRow
  rw [List.find?_append]
  by_cases h : r.symbol = s ∧ r.date = d
  · rw [if_pos h]
    have h1 : (st.filter fun x => !keyIs r.symbol r.date x).find?
        (keyIs s d) = none := by
      rw [List.find?_eq_none]
      intro x hx hpx
      have hq := (List.mem_filter.mp hx).2
      have hxk := (keyIs_eq_true_iff s d x).mp hpx
      have : keyIs r.symbol r.date x = true :=
        (keyIs_eq_true_iff _ _ _).mpr ⟨hxk.1.trans h.1.symm, hxk.2.trans h.2.symm⟩
      rw [this] at hq
      exact absurd hq (by simp)
    rw [h1]
    have h2 : keyIs s d r = true := (keyIs_eq_true_iff s d r).mpr h
    simp [List.find?, h2]
  · rw [if_neg h]
    have h2 : keyIs s d r = false := (keyIs_eq_false_iff s d r).mpr h
    have h3 : List.find? (keyIs s d) [r] = none := by
      simp [List.find?, h2]
    rw [find?_filter_of_imp (keyIs s d) _ st ?_, h3]
    · cases st.find? (keyIs s d) <;> rfl
    · intro x hpx
      have hxk := (keyIs_eq_true_iff s d x).mp hpx
      have : keyIs r.symbol r.date x = false := by
        rw [keyIs_eq_false_iff]
        intro hc
        exact h ⟨hc.1.symm.trans hxk.1, hc.2.symm.trans hxk.2⟩
      rw [this]
      rfl

theorem length_upsertRow (st : Store) (r : Row) :
    (upsertRow st r).length + keyCount st r.symbol r.date = st.length + 1 := by
  unfold upsertRow keyCount
  rw [List.length_append]
  have h := countP_not_add (keyIs r.symbol r.date) st
  have hl : (st.filter fun x => !keyIs r.symbol r.date x).length =
      st.countP (fun x => !keyIs r.symbol r.date x) :=
    (List.countP_eq_length_filter _ _).symm
  simp only [hl, List.length_singleton]
  omega

theorem hasKey_iff_keyCount (st : Store) (s : String) (d : Int) :
    hasKey st s d = true ↔ 0 < keyCount st s d := by
  unfold hasKey keyCount
  rw [List.any_eq_true]
  exact List.countP_pos_iff.symm

theorem keyCount_foldl_upsert (rows : List Row) (st : Store) (s : String)
    (d : Int) :
    keyCount (rows.foldl upsertRow st) s d =
      if ∃ r ∈ rows, r.symbol = s ∧ r.date = d then 1
      else keyCount st s d := by
  induction rows generalizing st with
  | nil => simp
  | cons r rows ih =>
      rw [List.foldl_cons, ih]
      by_cases hrest : ∃ x ∈ rows, x.symbol = s ∧ x.date = d
      · have hcons : ∃ x ∈ r :: rows, x.symbol = s ∧ x.date = d := by
          rcases hrest with ⟨x, hx, hxx⟩
          exact ⟨x, List.mem_cons_of_mem _ hx, hxx⟩
        rw [if_pos hrest, if_pos hcons]
      · rw [if_neg hrest, keyCount_upsertRow]
        by_cases hr : r.symbol = s ∧ r.date = d
        · rw [if_pos hr, if_pos ⟨r, List.mem_cons_self r rows, hr⟩]
        · have hnone : ¬ ∃ x ∈ r :: rows, x.symbol = s ∧ x.date = d := by
            rintro ⟨x, hx, hxx⟩
            rcases List.mem_cons.mp hx with rfl | hx
            · exact hr hxx
            · exact hrest ⟨x, hx, hxx⟩
          rw [if_neg hr, if_neg hnone]

theorem uniqueKeys_foldl_upsert (rows : List Row) (st : Store)
    (h : UniqueKeys st) : UniqueKeys (rows.foldl upsertRow st) := by
  induction rows generalizing st with
  | nil => exact h
  | cons r rows ih => exact ih _ (uniqueKeys_upsertRow st r h)

theorem length_foldl_upsert_of_hasKey (rows : List Row) (st : Store)
    (hU : UniqueKeys st)
    (h : ∀ r ∈ rows, hasKey st r.symbol r.date = true) :
    (rows.foldl upsertRow st).length = st.length := by
  induction rows generalizing st with
  | nil => rfl
  | cons r rows ih =>
      rw [List.foldl_cons]
      have h1 : keyCount st r.symbol r.date = 1 := by
        have hp := (hasKey_iff_keyCount st r.symbol r.date).mp
          (h r (List.mem_cons_self r rows))
        have hu := hU r.symbol r.date
        omega
      have hlen : (upsertRow st r).length = st.length := by
        have := length_upsertRow st r
        omega
      rw [ih (upsertRow st r) (uniqueKeys_upsertRow st r hU) ?_, hlen]
      intro x hx
      rw [hasKey_iff_keyCount, keyCount_upsertRow]
      split
      · omega
      · have := (hasKey_iff_keyCount st x.symbol x.date).mp
          (h x (List.mem_cons_of_mem _ hx))
        omega

/-- The last row of `rows` bearing key `(s, d)`, if any: the one whose write
wins after the batch is replayed in order. -/
def lastRowFor (rows : List Row) (s : String) (d : Int) : Option Row :=
  rows.reverse.find? (keyIs s d)

theorem lastRowFor_cons (r : Row) (rows : List Row) (s : String) (d : Int) :
    lastRowFor (r :: rows) s d =
      (lastRowFor rows s d).or (if keyIs s d r then some r else none) := by
  unfold lastRowFor
  rw [List.reverse_cons, List.find?_append]
  congr 1
  by_cases h : keyIs s d r = true
  · simp [List.find?, h]
  · simp [List.find?, h]

theorem rowAt_foldl_upsert (rows : List Row) (st : Store) (s : String)
    (d : Int) :
    rowAt (rows.foldl upsertRow st) s d =
      (lastRowFor rows s d).or (rowAt st s d) := by
  induction rows generalizing st with
  | nil => simp [lastRowFor]
  | cons r rows ih =>
      rw [List.foldl_cons, ih, lastRowFor_cons, Option.or_assoc, rowAt_upsertRow]
      congr 1
      by_cases h : r.symbol = s ∧ r.date = d
      · rw [if_pos h, if_pos ((keyIs_eq_true_iff s d r).mpr h)]
        rfl
      · have hkey : ¬ keyIs s d r = true := by
          simp only [keyIs_eq_true_iff]
          exact h
        rw [if_neg h, if_neg hkey]
        rfl

theorem firstFailure_none (fails : Row → Bool) (symbol : String)
    (data : List HistoricalData)
    (h : ∀ hd ∈ data, fails (mkRow symbol hd) = false) :
    firstFailure fails symbol data = none := by
  induction data with
  | nil => rfl
  | cons hd rest ih =>
      rw [firstFailure, if_neg]
      · exact ih (fun x hx => h x (List.mem_cons_of_mem _ hx))
      · simp [h hd (List.mem_cons_self _ _)]

theorem execInserts_ok_store (fails : Row → Bool) (symbol : String)
    (data : List HistoricalData) (st st' : Store)
    (h : execInserts fails symbol data st = .ok st') :
    st' = (data.map (mkRow symbol)).foldl upsertRow st := by
  induction data generalizing st with
  | nil =>
      rw [execInserts] at h
      exact (Except.ok.inj h).symm
  | cons hd rest ih =>
      by_cases hf : fails (mkRow symbol hd) = true
      · rw [execInserts, if_pos hf] at h
        cases h
      · rw [execInserts, if_neg hf] at h
        rw [List.map_cons, List.foldl_cons]
        exact ih _ h

/-- A fully succeeding `saveHistoricalData` commits exactly the ordered
upserts of the batch. -/
theorem saveHistoricalData_ok (fails : Row → Bool) (db : Store)
    (symbol : String) (data : List HistoricalData)
    (h : ∀ hd ∈ data, fails (mkRow symbol hd) = false) :
    saveHistoricalData fails db symbol data =
      ((data.map (mkRow symbol)).foldl upsertRow db, .ok ()) := by
  obtain ⟨st', hst⟩ := execInserts_of_firstFailure_none fails symbol data
    (firstFailure_none fails symbol data h) db
  have heq := execInserts_ok_store fails symbol data db st' hst
  subst heq
  simp [saveHistoricalData, hst]

/-- Claim C5: persisting a bar whose `(symbol, date)` key exists overwrites
all non-key fields unconditionally (last-write-wins); re-running
`saveHistoricalData` with an identical batch yields zero net row-count
change and identical stored values at every key; and every persist
operation preserves the invariant that no two stored rows share
`(symbol, date)`. -/
theorem upsert_lastWriteWins_idempotent (fails : Row → Bool) (db : Store)
    (symbol : String) (data : List HistoricalData)
    (hU : UniqueKeys db)
    (hok : ∀ hd ∈ data, fails (mkRow symbol hd) = false) :
    (∀ st r, rowAt (upsertRow st r) r.symbol r.date = some r) ∧
    ((saveHistoricalData fails (saveHistoricalData fails db symbol data).1
        symbol data).1.length =
      (saveHistoricalData fails db symbol data).1.length ∧
     ∀ s d, rowAt (saveHistoricalData fails (saveHistoricalData fails db
        symbol data).1 symbol data).1 s d =
       rowAt (saveHistoricalData fails db symbol data).1 s d) ∧
    (∀ db' sym' data', UniqueKeys db' →
      UniqueKeys (saveHistoricalData fails db' sym' data').1) := by
  have hsave := saveHistoricalData_ok fails db symbol data hok
  refine ⟨?_, ?_, ?_⟩
  · intro st r
    rw [rowAt_upsertRow, if_pos ⟨rfl, rfl⟩]
  · rw [hsave]
    have hsave2 := saveHistoricalData_ok fails
      ((data.map (mkRow symbol)).foldl upsertRow db) symbol data hok
    rw [hsave2]
    constructor
    · apply length_foldl_upsert_of_hasKey
      · exact uniqueKeys_foldl_upsert _ _ hU
      · intro r hr
        rw [hasKey_iff_keyCount, keyCount_foldl_upsert,
          if_pos ⟨r, hr, rfl, rfl⟩]
        omega
    · intro s d
      rw [rowAt_foldl_upsert, rowAt_foldl_upsert]
      cases hl : lastRowFor (data.map (mkRow symbol)) s d with
      | some r => rfl
      | none => rfl
  · intro db' sym' data' hU'
    unfold saveHistoricalData
    cases hex : execInserts fails sym' data' db' with
    | ok st =>
        have heq := execInserts_ok_store fails sym' data' db' st hex
        subst heq
        exact uniqueKeys_foldl_upsert _ _ hU'
    | error e => exact hU'

/-- Witness for Claim C5 at a concrete input: saving the same one-bar batch
twice into an initially empty store keeps the row count and the stored
values of the first save. -/
theorem upsert_lastWriteWins_idempotent_witness :
    rowAt (upsertRow [] (mkRow "AAPL" sampleBar)) "AAPL" 86400 =
      some (mkRow "AAPL" sampleBar) ∧
    (saveHistoricalData (fun _ => false)
        (saveHistoricalData (fun _ => false) [] "AAPL" [sampleBar]).1
        "AAPL" [sampleBar]).1.length =
      (saveHistoricalData (fun _ => false) [] "AAPL" [sampleBar]).1.length ∧
    rowAt (saveHistoricalData (fun _ => false)
        (saveHistoricalData (fun _ => false) [] "AAPL" [sampleBar]).1
        "AAPL" [sampleBar]).1 "AAPL" 86400 =
      rowAt (saveHistoricalData (fun _ => false) [] "AAPL" [sampleBar]).1
        "AAPL" 86400 := by
  have h := upsert_lastWriteWins_idempotent (fun _ => false) [] "AAPL"
    [sampleBar] (fun s d => by simp [keyCount]) (fun hd _ => rfl)
  exact ⟨h.1 [] (mkRow "AAPL" sampleBar), h.2.1.1, h.2.1.2 "AAPL" 86400⟩

/-- Go struct `types.StockData` (the same eight fields as
`types.HistoricalData`), the batch element type of the part_006 pipeline. -/
structure StockData where
  Symbol : String
  Date : Int
  Open : Price
  High : Price
  Low : Price
  Close : Price
  AdjClose : Price
  Volume : Int
  deriving DecidableEq, Repr

/-- Field-for-field view of a `StockData` as a `HistoricalData` (the
conversion written out at part_006 lines 630-642). -/
def StockData.toHistorical (d : StockData) : HistoricalData :=
  { Symbol := d.Symbol, Date := d.Date, Open := d.Open, High := d.High,
    Low := d.Low, Close := d.Close, AdjClose := d.AdjClose,
    Volume := d.Volume }

/-- The row bound by `stmt.Exec(symbol, d.Date.Unix(), …)` in the part_006
`saveHistoricalData` (lines 675-689). -/
def mkRow006 (symbol : String) (d : StockData) : Row :=
  { symbol := symbol, date := d.Date, open' := d.Open, high := d.High,
    low := d.Low, close := d.Close, adj_close := some d.AdjClose,
    volume := d.Volume }

theorem mkRow006_eq (symbol : String) (d : StockData) :
    mkRow006 symbol d = mkRow symbol d.toHistorical := rfl

/-- The insert loop of the part_006 `saveHistoricalData`: its
`INSERT … ON CONFLICT(symbol, date) DO UPDATE SET` overwrites every non-key
column of the conflicting row — the same table effect as
`INSERT OR REPLACE`, hence the shared `upsertRow` — and its error message
carries no symbol/date. -/
def execInserts006 (fails : Row → Bool) (symbol : String) :
    List StockData → Store → Except String Store
  | [], st => .ok st
  | d :: rest, st =>
      if fails (mkRow006 symbol d) then
        .error "failed to insert historical data"
      else
        execInserts006 fails symbol rest (upsertRow st (mkRow006 symbol d))

/-- `saveHistoricalData` of src/unnamed/part_006 (lines 648-697): the
transaction is begun on the package-global handle
(`tx, err := BacktestDB.Begin()`), NOT on the `db` parameter, so the batch
always lands in the backtest store whatever handle the caller passes. -/
def saveHistoricalData006 (fails : Row → Bool) (db : DBHandle)
    (symbol : String) (data : List StockData) (w : World) :
    World × Except String Unit :=
  match execInserts006 fails symbol data (w.get .backtest) with
  | .ok st => (w.set .backtest st, .ok ())
  | .error e => (w, .error e)

/-- The part_007 `saveHistoricalData` lifted to the two-store world: it
writes through the handle it is passed. -/
def saveHistoricalData007 (fails : Row → Bool) (db : DBHandle)
    (symbol : String) (data : List HistoricalData) (w : World) :
    World × Except String Unit :=
  ((w.set db (saveHistoricalData fails (w.get db) symbol data).1),
    (saveHistoricalData fails (w.get db) symbol data).2)

theorem execInserts006_eq (fails : Row → Bool) (symbol : String)
    (data : List StockData) (st : Store) :
    execInserts006 fails symbol data st =
      (execInserts fails symbol (data.map StockData.toHistorical) st).mapError
        (fun _ => "failed to insert historical data") := by
  induction data generalizing st with
  | nil => rfl
  | cons d rest ih =>
      rw [List.map_cons, execInserts006, execInserts, ← mkRow006_eq]
      by_cases hf : fails (mkRow006 symbol d) = true
      · rw [if_pos hf, if_pos hf]
        rfl
      · rw [if_neg hf, if_neg hf, ih]

/-- A sample `StockData` used in the concrete part of Claim C9. -/
def sampleStock : StockData :=
  { Symbol := "AAPL", Date := 86400, Open := 1, High := 2, Low := 1,
    Close := 2, AdjClose := 2, Volume := 10 }

theorem World.set_get (w : World) (db : DBHandle) :
    w.set db (w.get db) = w := by
  cases w
  cases db <;> rfl

/-- Claim C9: the part_006 `saveHistoricalData` begins its transaction on
the global `BacktestDB` and never uses its `db` parameter — for every
passed handle it writes the batch into the backtest store and leaves the
SPXL store untouched; it has the part_007 variant's store effect exactly
when the passed handle is `BacktestDB`, and on a concrete input with the
SPXL handle the two variants' effects differ. -/
theorem save006_targets_global_db (fails : Row → Bool) (symbol : String)
    (data : List StockData) (w : World) :
    (∀ db db', saveHistoricalData006 fails db symbol data w =
      saveHistoricalData006 fails db' symbol data w) ∧
    (∀ db, (saveHistoricalData006 fails db symbol data w).1.spxl = w.spxl ∧
      (saveHistoricalData006 fails db symbol data w).1.backtest =
        (saveHistoricalData fails w.backtest symbol
          (data.map StockData.toHistorical)).1) ∧
    (∀ db, db = DBHandle.backtest →
      (saveHistoricalData006 fails db symbol data w).1 =
        (saveHistoricalData007 fails db symbol
          (data.map StockData.toHistorical) w).1) ∧
    (saveHistoricalData006 (fun _ => false) DBHandle.spxl "AAPL"
        [sampleStock] ⟨[], []⟩).1 ≠
      (saveHistoricalData007 (fun _ => false) DBHandle.spxl "AAPL"
        [sampleStock.toHistorical] ⟨[], []⟩).1 := by
  have hkey : ∀ (w' : World),
      (saveHistoricalData006 fails DBHandle.backtest symbol data w').1 =
        w'.set .backtest (saveHistoricalData fails (w'.get .backtest)
          symbol (data.map StockData.toHistorical)).1 := by
    intro w'
    unfold saveHistoricalData006
    rw [execInserts006_eq]
    cases hex : execInserts fails symbol (data.map StockData.toHistorical)
        (w'.get .backtest) with
    | ok st => simp [saveHistoricalData, hex, Except.mapError]
    | error e =>
        simp [saveHistoricalData, hex, Except.mapError, World.set_get]
  refine ⟨fun _ _ => rfl, ?_, ?_, ?_⟩
  · intro db
    have h := hkey w
    constructor
    · rw [show saveHistoricalData006 fails db symbol data w =
          saveHistoricalData006 fails DBHandle.backtest symbol data w
        from rfl, h]
      cases w
      rfl
    · rw [show saveHistoricalData006 fails db symbol data w =
          saveHistoricalData006 fails DBHandle.backtest symbol data w
        from rfl, h]
      cases w
      rfl
  · intro db hdb
    subst hdb
    rw [hkey w]
    rfl
  · intro hcontra
    have h1 : (saveHistoricalData006 (fun _ => false) DBHandle.spxl "AAPL"
        [sampleStock] ⟨[], []⟩).1 =
        ⟨[mkRow006 "AAPL" sampleStock], []⟩ := rfl
    have h2 : (saveHistoricalData007 (fun _ => false) DBHandle.spxl "AAPL"
        [sampleStock.toHistorical] ⟨[], []⟩).1 =
        ⟨[], [mkRow006 "AAPL" sampleStock]⟩ := rfl
    rw [h1, h2] at hcontra
    cases hcontra

/-- `MIN(date)` over `stock_historical_data` (0 stands for the SQL NULL of
an empty table, on which the script generates no dates and no symbols, so
the value is never consumed). -/
def minDate : Store → Int
  | [] => 0
  | r :: rest => rest.foldl (fun m x => min m x.date) r.date

/-- `MAX(date)` over `stock_historical_data`. -/
def maxDate : Store → Int
  | [] => 0
  | r :: rest => rest.foldl (fun m x => max m x.date) r.date

/-- The recursive CTE `date_range` of part_004: seed at `cur`, and append
`+ 86400` rows while the current value is below `hi`. -/
def dateGridFrom (hi cur : Int) : List Int :=
  if cur < hi then cur :: dateGridFrom hi (cur + 86400) else [cur]
termination_by (hi - cur).toNat
decreasing_by omega

/-- The last date the CTE generates: the first grid point at or past `hi`. -/
def gridLast (hi cur : Int) : Int :=
  if cur < hi then gridLast hi (cur + 86400) else cur
termination_by (hi - cur).toNat
decreasing_by omega

/-- The temporary table `all_dates` of part_004. -/
def allDates (st : Store) : List Int :=
  dateGridFrom (maxDate st) (minDate st)

/-- `SELECT DISTINCT symbol FROM stock_historical_data`. -/
def distinctSymbols (st : Store) : List String :=
  (st.map (fun r => r.symbol)).dedup

/-- The temporary table `missing_data` of part_004: the cross join of the
distinct symbols with `all_dates`, keeping the `(symbol, date)` pairs
absent from the store. -/
def missingData (st : Store) : List (String × Int) :=
  (distinctSymbols st).flatMap (fun s =>
    (allDates st).filterMap (fun d =>
      if hasKey st s d then none else some (s, d)))

/-- The correlated subquery `SELECT close FROM stock_historical_data WHERE
symbol = md.symbol AND date < md.date ORDER BY date DESC LIMIT 1`: the
stored row for the symbol with the greatest date below `d`, if any. -/
def latestBefore (st : Store) (s : String) (d : Int) : Option Row :=
  match st with
  | [] => none
  | r :: rest =>
      let tail := latestBefore rest s d
      if r.symbol = s ∧ r.date < d then
        match tail with
        | none => some r
        | some a => if a.date < r.date then some r else some a
      else tail

/-- `COALESCE(<prior close>, 100.0)`. -/
def priorClose (st : Store) (s : String) (d : Int) : Price :=
  match latestBefore st s d with
  | some r => r.close
  | none => 100

/-- The row the gap-fill INSERT builds for one missing pair: all four OHLC
columns carry the prior close, `volume` is 0, and `adj_close` is not in the
column list, so it stays NULL. -/
def gapRow (st : Store) (s : String) (d : Int) : Row :=
  { symbol := s, date := d, open' := priorClose st s d,
    high := priorClose st s d, low := priorClose st s d,
    close := priorClose st s d, adj_close := none, volume := 0 }

/-- The gap-fill script of part_004: materialize `missing_data` against the
current table, then INSERT one synthetic forward-filled row per missing
pair.  The correlated prior-close lookup is evaluated against the
pre-insert table (rows the same statement adds between a real prior bar and
a missing day copy that bar's close, so reading them would produce the same
value). -/
def gapFill (st : Store) : Store :=
  st ++ (missingData st).map (fun p => gapRow st p.1 p.2)

theorem foldl_min_le_init (l : List Row) (a : Int) :
    l.foldl (fun m x => min m x.date) a ≤ a := by
  induction l generalizing a with
  | nil => exact le_refl a
  | cons r l ih => exact le_trans (ih _) (min_le_left _ _)

theorem foldl_min_le_mem (l : List Row) (a : Int) (r : Row) (hr : r ∈ l) :
    l.foldl (fun m x => min m x.date) a ≤ r.date := by
  induction l generalizing a with
  | nil => cases hr
  | cons x l ih =>
      rcases List.mem_cons.mp hr with rfl | hr
      · exact le_trans (foldl_min_le_init l _) (min_le_right _ _)
      · exact ih _ hr

theorem foldl_min_eq_init_or_mem (l : List Row) (a : Int) :
    l.foldl (fun m x => min m x.date) a = a ∨
      ∃ r ∈ l, l.foldl (fun m x => min m x.date) a = r.date := by
  induction l generalizing a with
  | nil => exact Or.inl rfl
  | cons x l ih =>
      rcases ih (min a x.date) with h | ⟨r, hr, hrr⟩
      · by_cases hax : a ≤ x.date
        · exact Or.inl (by rw [List.foldl_cons]; exact h.trans (min_eq_left hax))
        · refine Or.inr ⟨x, List.mem_cons_self x l, ?_⟩
          rw [List.foldl_cons]
          exact h.trans (min_eq_right (le_of_not_le hax))
      · exact Or.inr ⟨r, List.mem_cons_of_mem _ hr,
          by rw [List.foldl_cons]; exact hrr⟩

theorem minDate_spec (st : Store) (h : st ≠ []) :
    (∃ r ∈ st, r.date = minDate st) ∧ ∀ r ∈ st, minDate st ≤ r.date := by
  match st with
  | [] => exact absurd rfl h
  | r0 :: rest =>
      constructor
      · rcases foldl_min_eq_init_or_mem rest r0.date with h1 | ⟨r, hr, hrr⟩
        · exact ⟨r0, List.mem_cons_self r0 rest, h1.symm⟩
        · exact ⟨r, List.mem_cons_of_mem _ hr, hrr.symm⟩
      · intro r hr
        rcases List.mem_cons.mp hr with rfl | hr
        · exact foldl_min_le_init rest r.date
        · exact foldl_min_le_mem rest r0.date r hr

theorem foldl_max_init_le (l : List Row) (a : Int) :
    a ≤ l.foldl (fun m x => max m x.date) a := by
  induction l generalizing a with
  | nil => exact le_refl a
  | cons r l ih => exact le_trans (le_max_left _ _) (ih _)

theorem foldl_max_mem_le (l : List Row) (a : Int) (r : Row) (hr : r ∈ l) :
    r.date ≤ l.foldl (fun m x => max m x.date) a := by
  induction l generalizing a with
  | nil => cases hr
  | cons x l ih =>
      rcases List.mem_cons.mp hr with rfl | hr
      · exact le_trans (le_max_right _ _) (foldl_max_init_le l _)
      · exact ih _ hr

theorem foldl_max_eq_init_or_mem (l : List Row) (a : Int) :
    l.foldl (fun m x => max m x.date) a = a ∨
      ∃ r ∈ l, l.foldl (fun m x => max m x.date) a = r.date := by
  induction l generalizing a with
  | nil => exact Or.inl rfl
  | cons x l ih =>
      rcases ih (max a x.date) with h | ⟨r, hr, hrr⟩
      · by_cases hax : x.date ≤ a
        · exact Or.inl (by rw [List.foldl_cons]; exact h.trans (max_eq_left hax))
        · refine Or.inr ⟨x, List.mem_cons_self x l, ?_⟩
          rw [List.foldl_cons]
          exact h.trans (max_eq_right (le_of_not_le hax))
      · exact Or.inr ⟨r, List.mem_cons_of_mem _ hr,
          by rw [List.foldl_cons]; exact hrr⟩

theorem maxDate_spec (st : Store) (h : st ≠ []) :
    (∃ r ∈ st, r.date = maxDate st) ∧ ∀ r ∈ st, r.date ≤ maxDate st := by
  match st with
  | [] => exact absurd rfl h
  | r0 :: rest =>
      constructor
      · rcases foldl_max_eq_init_or_mem rest r0.date with h1 | ⟨r, hr, hrr⟩
        · exact ⟨r0, List.mem_cons_self r0 rest, h1.symm⟩
        · exact ⟨r, List.mem_cons_of_mem _ hr, hrr.symm⟩
      · intro r hr
        rcases List.mem_cons.mp hr with rfl | hr
        · exact foldl_max_init_le rest r.date
        · exact foldl_max_mem_le rest r0.date r hr

theorem minDate_eq_of (l : Store) (h : l ≠ []) (m : Int)
    (hmem : ∃ r ∈ l, r.date = m) (hle : ∀ r ∈ l, m ≤ r.date) :
    minDate l = m := by
  obtain ⟨⟨r0, hr0, hr0d⟩, hall⟩ := minDate_spec l h
  obtain ⟨r1, hr1, hr1d⟩ := hmem
  have h1 := hall r1 hr1
  have h2 := hle r0 hr0
  omega

theorem maxDate_eq_of (l : Store) (h : l ≠ []) (m : Int)
    (hmem : ∃ r ∈ l, r.date = m) (hle : ∀ r ∈ l, r.date ≤ m) :
    maxDate l = m := by
  obtain ⟨⟨r0, hr0, hr0d⟩, hall⟩ := maxDate_spec l h
  obtain ⟨r1, hr1, hr1d⟩ := hmem
  have h1 := hall r1 hr1
  have h2 := hle r0 hr0
  omega

theorem le_gridLast (hi cur : Int) : hi ≤ gridLast hi cur ∨
    (¬ cur < hi ∧ gridLast hi cur = cur) := by
  by_cases h : cur < hi
  · left
    have : gridLast hi cur = gridLast hi (cur + 86400) := by
      rw [gridLast, if_pos h]
    rw [this]
    rcases le_gridLast hi (cur + 86400) with h1 | ⟨h1, h2⟩
    · exact h1
    · omega
  · right
    exact ⟨h, by rw [gridLast, if_neg h]⟩
termination_by (hi - cur).toNat
decreasing_by omega

theorem gridLast_mem (hi cur : Int) : gridLast hi cur ∈ dateGridFrom hi cur := by
  by_cases h : cur < hi
  · rw [gridLast, if_pos h, dateGridFrom, if_pos h]
    exact List.mem_cons_of_mem _ (gridLast_mem hi (cur + 86400))
  · rw [gridLast, if_neg h, dateGridFrom, if_neg h]
    exact List.mem_singleton_self cur
termination_by (hi - cur).toNat
decreasing_by omega

theorem mem_dateGridFrom_bounds (hi cur x : Int)
    (hx : x ∈ dateGridFrom hi cur) : cur ≤ x ∧ x ≤ gridLast hi cur := by
  by_cases h : cur < hi
  · rw [dateGridFrom, if_pos h] at hx
    rw [gridLast, if_pos h]
    rcases List.mem_cons.mp hx with rfl | hx
    · constructor
      · exact le_refl x
      · rcases le_gridLast hi (x + 86400) with h1 | ⟨h1, h2⟩
        · omega
        · omega
    · have := mem_dateGridFrom_bounds hi (cur + 86400) x hx
      constructor
      · omega
      · exact this.2
  · rw [dateGridFrom, if_neg h] at hx
    rw [gridLast, if_neg h]
    rw [List.mem_singleton] at hx
    subst hx
    exact ⟨le_refl x, le_refl x⟩
termination_by (hi - cur).toNat
decreasing_by all_goals omega

theorem dateGridFrom_gridLast (hi cur : Int) :
    dateGridFrom (gridLast hi cur) cur = dateGridFrom hi cur := by
  by_cases h : cur < hi
  · have hg : gridLast hi cur = gridLast hi (cur + 86400) := by
      rw [gridLast, if_pos h]
    have hlt : cur < gridLast hi cur := by
      rcases le_gridLast hi cur with h1 | ⟨h1, _⟩
      · omega
      · omega
    have e1 : dateGridFrom (gridLast hi cur) cur =
        cur :: dateGridFrom (gridLast hi cur) (cur + 86400) := by
      rw [dateGridFrom, if_pos hlt]
    have e2 : dateGridFrom hi cur = cur :: dateGridFrom hi (cur + 86400) := by
      rw [dateGridFrom, if_pos h]
    rw [e1, e2, hg, dateGridFrom_gridLast hi (cur + 86400)]
  · have hg : gridLast hi cur = cur := by rw [gridLast, if_neg h]
    have e1 : dateGridFrom cur cur = [cur] := by
      rw [dateGridFrom, if_neg (lt_irrefl cur)]
    have e2 : dateGridFrom hi cur = [cur] := by
      rw [dateGridFrom, if_neg h]
    rw [hg, e1, e2]
termination_by (hi - cur).toNat
decreasing_by all_goals omega

theorem mem_distinctSymbols (st : Store) (s : String) :
    s ∈ distinctSymbols st ↔ ∃ r ∈ st, r.symbol = s := by
  unfold distinctSymbols
  rw [List.mem_dedup, List.mem_map]

theorem mem_missingData (st : Store) (s : String) (d : Int) :
    (s, d) ∈ missingData st ↔
      s ∈ distinctSymbols st ∧ d ∈ allDates st ∧ hasKey st s d = false := by
  unfold missingData
  rw [List.mem_flatMap]
  constructor
  · rintro ⟨s', hs', hmem⟩
    rw [List.mem_filterMap] at hmem
    rcases hmem with ⟨d', hd', hif⟩
    by_cases hk : hasKey st s' d' = true
    · rw [if_pos hk] at hif
      cases hif
    · rw [if_neg hk] at hif
      obtain ⟨hs, hd⟩ := Prod.mk.injEq .. ▸ Option.some.inj hif
      subst hs; subst hd
      exact ⟨hs', hd', Bool.eq_false_iff.mpr hk⟩
  · rintro ⟨hs, hd, hk⟩
    refine ⟨s, hs, ?_⟩
    rw [List.mem_filterMap]
    exact ⟨d, hd, by rw [if_neg (by rw [hk]; exact Bool.false_ne_true)]⟩

theorem mem_gapFill (st : Store) (r : Row) :
    r ∈ gapFill st ↔
      r ∈ st ∨ ∃ p ∈ missingData st, r = gapRow st p.1 p.2 := by
  unfold gapFill
  rw [List.mem_append, List.mem_map]
  constructor
  · rintro (h | ⟨p, hp, hpr⟩)
    · exact Or.inl h
    · exact Or.inr ⟨p, hp, hpr.symm⟩
  · rintro (h | ⟨p, hp, hpr⟩)
    · exact Or.inl h
    · exact Or.inr ⟨p, hp, hpr.symm⟩

theorem gapFill_ne_nil (st : Store) (h : st ≠ []) : gapFill st ≠ [] := by
  unfold gapFill
  intro hc
  exact h (List.append_eq_nil.mp hc).1

theorem hasKey_append (st l : Store) (s : String) (d : Int) :
    hasKey (st ++ l) s d = (hasKey st s d || hasKey l s d) := by
  unfold hasKey
  exact List.any_append

/-- After one gap-fill pass, every distinct symbol has a row on every date
of the scanned grid. -/
theorem gapFill_covers (st : Store) (s : String) (d : Int)
    (hs : s ∈ distinctSymbols st) (hd : d ∈ allDates st) :
    hasKey (gapFill st) s d = true := by
  unfold gapFill
  rw [hasKey_append]
  by_cases hk : hasKey st s d = true
  · rw [hk]
    rfl
  · have hmem : (s, d) ∈ missingData st :=
      (mem_missingData st s d).mpr ⟨hs, hd, Bool.eq_false_iff.mpr hk⟩
    have : hasKey ((missingData st).map (fun p => gapRow st p.1 p.2)) s d
        = true := by
      unfold hasKey
      rw [List.any_eq_true]
      refine ⟨gapRow st s d, List.mem_map_of_mem _ hmem, ?_⟩
      rw [keyIs_eq_true_iff]
      exact ⟨rfl, rfl⟩
    rw [this, Bool.or_true]

theorem hasKey_exists (st : Store) (s : String) (d : Int) :
    hasKey st s d = true ↔ ∃ r ∈ st, r.symbol = s ∧ r.date = d := by
  unfold hasKey
  rw [List.any_eq_true]
  constructor
  · rintro ⟨r, hr, hk⟩
    exact ⟨r, hr, (keyIs_eq_true_iff s d r).mp hk⟩
  · rintro ⟨r, hr, hk⟩
    exact ⟨r, hr, (keyIs_eq_true_iff s d r).mpr hk⟩

theorem distinctSymbols_gapFill (st : Store) (s : String) :
    s ∈ distinctSymbols (gapFill st) ↔ s ∈ distinctSymbols st := by
  rw [mem_distinctSymbols, mem_distinctSymbols]
  constructor
  · rintro ⟨r, hr, hrs⟩
    rcases (mem_gapFill st r).mp hr with h | ⟨p, hp, hpr⟩
    · exact ⟨r, h, hrs⟩
    · subst hpr
      obtain ⟨hs1, -, -⟩ := (mem_missingData st p.1 p.2).mp hp
      rw [show (gapRow st p.1 p.2).symbol = p.1 from rfl] at hrs
      subst hrs
      exact (mem_distinctSymbols st _).mp hs1
  · rintro ⟨r, hr, hrs⟩
    exact ⟨r, (mem_gapFill st r).mpr (Or.inl hr), hrs⟩

theorem minDate_gapFill (st : Store) (h : st ≠ []) :
    minDate (gapFill st) = minDate st := by
  apply minDate_eq_of (gapFill st) (gapFill_ne_nil st h)
  · obtain ⟨⟨r, hr, hrd⟩, -⟩ := minDate_spec st h
    exact ⟨r, (mem_gapFill st r).mpr (Or.inl hr), hrd⟩
  · intro r hr
    rcases (mem_gapFill st r).mp hr with hmem | ⟨p, hp, hpr⟩
    · exact (minDate_spec st h).2 r hmem
    · subst hpr
      obtain ⟨-, hd, -⟩ := (mem_missingData st p.1 p.2).mp hp
      exact (mem_dateGridFrom_bounds (maxDate st) (minDate st) p.2 hd).1

theorem maxDate_gapFill (st : Store) (h : st ≠ []) :
    maxDate (gapFill st) = gridLast (maxDate st) (minDate st) := by
  have hge : maxDate st ≤ gridLast (maxDate st) (minDate st) := by
    rcases le_gridLast (maxDate st) (minDate st) with h1 | ⟨h1, h2⟩
    · exact h1
    · obtain ⟨⟨r, hr, hrd⟩, -⟩ := maxDate_spec st h
      have hmin := (minDate_spec st h).2 r hr
      omega
  apply maxDate_eq_of (gapFill st) (gapFill_ne_nil st h)
  · by_cases hL : gridLast (maxDate st) (minDate st) = maxDate st
    · obtain ⟨⟨r, hr, hrd⟩, -⟩ := maxDate_spec st h
      exact ⟨r, (mem_gapFill st r).mpr (Or.inl hr), by rw [hrd, hL]⟩
    · have hgt : maxDate st < gridLast (maxDate st) (minDate st) := by omega
      obtain ⟨r0, hr0⟩ := List.exists_mem_of_ne_nil st h
      have hs0 : r0.symbol ∈ distinctSymbols st :=
        (mem_distinctSymbols st r0.symbol).mpr ⟨r0, hr0, rfl⟩
      have hnk : hasKey st r0.symbol
          (gridLast (maxDate st) (minDate st)) = false := by
        rw [Bool.eq_false_iff]
        intro hk
        obtain ⟨r, hr, -, hrd⟩ := (hasKey_exists st _ _).mp hk
        have := (maxDate_spec st h).2 r hr
        omega
      have hmem : (r0.symbol, gridLast (maxDate st) (minDate st)) ∈
          missingData st :=
        (mem_missingData st _ _).mpr
          ⟨hs0, gridLast_mem (maxDate st) (minDate st), hnk⟩
      exact ⟨gapRow st r0.symbol (gridLast (maxDate st) (minDate st)),
        (mem_gapFill st _).mpr (Or.inr ⟨_, hmem, rfl⟩), rfl⟩
  · intro r hr
    rcases (mem_gapFill st r).mp hr with hmem | ⟨p, hp, hpr⟩
    · have h1 := (maxDate_spec st h).2 r hmem
      omega
    · subst hpr
      obtain ⟨-, hd, -⟩ := (mem_missingData st p.1 p.2).mp hp
      exact (mem_dateGridFrom_bounds (maxDate st) (minDate st) p.2 hd).2

theorem allDates_gapFill (st : Store) (h : st ≠ []) :
    allDates (gapFill st) = allDates st := by
  unfold allDates
  rw [minDate_gapFill st h, maxDate_gapFill st h, dateGridFrom_gridLast]

/-- An immediately repeated pass finds nothing missing. -/
theorem missingData_gapFill (st : Store) :
    missingData (gapFill st) = [] := by
  by_cases h : st = []
  · subst h
    rfl
  · rw [List.eq_nil_iff_forall_not_mem]
    intro p hp
    obtain ⟨hs, hd, hk⟩ := (mem_missingData (gapFill st) p.1 p.2).mp hp
    rw [allDates_gapFill st h] at hd
    rw [distinctSymbols_gapFill st p.1] at hs
    have := gapFill_covers st p.1 p.2 hs hd
    rw [this] at hk
    cases hk

theorem gapFill_idempotent (st : Store) :
    gapFill (gapFill st) = gapFill st := by
  rw [show gapFill (gapFill st) = gapFill st ++
      (missingData (gapFill st)).map
        (fun p => gapRow (gapFill st) p.1 p.2) from rfl,
    missingData_gapFill]
  simp

/-- The prior-bar lookup really returns the most recent stored bar of the
symbol strictly before the missing day, and returns nothing exactly when no
such bar exists. -/
theorem latestBefore_spec (st : Store) (s : String) (d : Int) :
    (∀ r, latestBefore st s d = some r →
      r ∈ st ∧ r.symbol = s ∧ r.date < d ∧
        ∀ x ∈ st, x.symbol = s → x.date < d → x.date ≤ r.date) ∧
    (latestBefore st s d = none →
      ∀ x ∈ st, ¬(x.symbol = s ∧ x.date < d)) := by
  induction st with
  | nil =>
      constructor
      · intro r hr
        cases hr
      · intro _ x hx
        cases hx
  | cons r0 rest ih =>
      constructor
      · intro r hr
        simp only [latestBefore] at hr
        by_cases hc : r0.symbol = s ∧ r0.date < d
        · rw [if_pos hc] at hr
          cases htail : latestBefore rest s d with
          | none =>
              rw [htail] at hr
              obtain rfl : r0 = r := Option.some.inj hr
              refine ⟨List.mem_cons_self r0 rest, hc.1, hc.2, ?_⟩
              intro x hx hxs hxd
              rcases List.mem_cons.mp hx with rfl | hx
              · exact le_refl _
              · exact absurd ⟨hxs, hxd⟩ (ih.2 htail x hx)
          | some a =>
              rw [htail] at hr
              have hr' : (if a.date < r0.date then some r0 else some a) =
                  some r := hr
              have ih1 := ih.1 a htail
              by_cases had : a.date < r0.date
              · rw [if_pos had] at hr'
                obtain rfl : r0 = r := Option.some.inj hr'
                refine ⟨List.mem_cons_self r0 rest, hc.1, hc.2, ?_⟩
                intro x hx hxs hxd
                rcases List.mem_cons.mp hx with rfl | hx
                · exact le_refl _
                · have := ih1.2.2.2 x hx hxs hxd
                  omega
              · rw [if_neg had] at hr'
                obtain rfl : a = r := Option.some.inj hr'
                refine ⟨List.mem_cons_of_mem _ ih1.1, ih1.2.1, ih1.2.2.1, ?_⟩
                intro x hx hxs hxd
                rcases List.mem_cons.mp hx with rfl | hx
                · omega
                · exact ih1.2.2.2 x hx hxs hxd
        · rw [if_neg hc] at hr
          have ih1 := ih.1 r hr
          refine ⟨List.mem_cons_of_mem _ ih1.1, ih1.2.1, ih1.2.2.1, ?_⟩
          intro x hx hxs hxd
          rcases List.mem_cons.mp hx with rfl | hx
          · exact absurd ⟨hxs, hxd⟩ hc
          · exact ih1.2.2.2 x hx hxs hxd
      · intro hnone x hx hxc
        simp only [latestBefore] at hnone
        by_cases hc : r0.symbol = s ∧ r0.date < d
        · rw [if_pos hc] at hnone
          cases htail : latestBefore rest s d with
          | none =>
              rw [htail] at hnone
              cases hnone
          | some a =>
              rw [htail] at hnone
              have hnone' : (if a.date < r0.date then some r0 else some a) =
                  (none : Option Row) := hnone
              by_cases had : a.date < r0.date
              · rw [if_pos had] at hnone'
                cases hnone'
              · rw [if_neg had] at hnone'
                cases hnone'
        · rw [if_neg hc] at hnone
          rcases List.mem_cons.mp hx with rfl | hx
          · exact hc hxc
          · exact ih.2 hnone x hx hxc

/-- Claim C8: for every missing `(symbol, day)` pair found by the
gap-filler, the inserted row carries `open = high = low = close` equal to
the close of the symbol's most recent prior bar — the fallback 100.0 when
no prior bar exists — and `volume = 0`; and running the gap-filler again
immediately afterwards finds no missing pairs and inserts no further rows. -/
theorem gapFill_forwardFill_idempotent (st : Store) :
    (∀ s d, (s, d) ∈ missingData st →
      gapRow st s d ∈ gapFill st ∧
      (gapRow st s d).open' = priorClose st s d ∧
      (gapRow st s d).high = priorClose st s d ∧
      (gapRow st s d).low = priorClose st s d ∧
      (gapRow st s d).close = priorClose st s d ∧
      (gapRow st s d).volume = 0) ∧
    (∀ s d r, latestBefore st s d = some r →
      r ∈ st ∧ r.symbol = s ∧ r.date < d ∧
        (∀ x ∈ st, x.symbol = s → x.date < d → x.date ≤ r.date) ∧
      priorClose st s d = r.close) ∧
    (∀ s d, latestBefore st s d = none → priorClose st s d = 100) ∧
    missingData (gapFill st) = [] ∧
    gapFill (gapFill st) = gapFill st := by
  refine ⟨?_, ?_, ?_, missingData_gapFill st, gapFill_idempotent st⟩
  · intro s d hmem
    exact ⟨(mem_gapFill st _).mpr (Or.inr ⟨(s, d), hmem, rfl⟩),
      rfl, rfl, rfl, rfl, rfl⟩
  · intro s d r hr
    obtain ⟨h1, h2, h3, h4⟩ := (latestBefore_spec st s d).1 r hr
    refine ⟨h1, h2, h3, h4, ?_⟩
    unfold priorClose
    rw [hr]
  · intro s d hnone
    unfold priorClose
    rw [hnone]

/-- Day-1 bar of the spec's gap-fill example: close 10. -/
def day1Row : Row :=
  { symbol := "X", date := 86400, open' := 10, high := 10, low := 10,
    close := 10, adj_close := some 10, volume := 100 }

/-- Day-3 bar of the spec's gap-fill example; day 2 is absent. -/
def day3Row : Row :=
  { symbol := "X", date := 259200, open' := 11, high := 11, low := 11,
    close := 11, adj_close := some 11, volume := 100 }

/-- In the example store, `(X, day 2)` is a missing pair. -/
theorem missing_example :
    ("X", (172800 : Int)) ∈ missingData [day1Row, day3Row] := by
  have hdates : allDates [day1Row, day3Row] = [86400, 172800, 259200] := by
    simp [allDates, minDate, maxDate, day1Row, day3Row, dateGridFrom]
  refine (mem_missingData _ _ _).mpr ⟨?_, ?_, ?_⟩
  · exact (mem_distinctSymbols _ _).mpr ⟨day1Row, by simp, rfl⟩
  · rw [hdates]
    simp
  · decide

/-- Witness for Claim C8 at the spec's example: day 1 (close 10) and day 3
present, day 2 missing — the filler adds a day-2 row with close 10 and
volume 0, and a second run changes nothing. -/
theorem gapFill_forwardFill_idempotent_witness :
    gapRow [day1Row, day3Row] "X" 172800 ∈ gapFill [day1Row, day3Row] ∧
    (gapRow [day1Row, day3Row] "X" 172800).close = 10 ∧
    (gapRow [day1Row, day3Row] "X" 172800).volume = 0 ∧
    gapFill (gapFill [day1Row, day3Row]) = gapFill [day1Row, day3Row] := by
  have h := gapFill_forwardFill_idempotent [day1Row, day3Row]
  obtain ⟨hmem2, -, -, -, hcl, hvol⟩ := h.1 "X" 172800 missing_example
  refine ⟨hmem2, ?_, hvol, h.2.2.2.2⟩
  rw [hcl]
  have hlb : latestBefore [day1Row, day3Row] "X" 172800 = some day1Row := by
    decide
  rw [(h.2.1 "X" 172800 day1Row hlb).2.2.2.2]
  rfl

theorem mem_foldl_upsert (rows : List Row) (db : Store) (r : Row)
    (hr : r ∈ rows.foldl upsertRow db) : r ∈ db ∨ r ∈ rows := by
  induction rows generalizing db with
  | nil => exact Or.inl hr
  | cons x rows ih =>
      rcases ih (upsertRow db x) hr with h | h
      · unfold upsertRow at h
        rcases List.mem_append.mp h with h | h
        · exact Or.inl (List.mem_of_mem_filter h)
        · rw [List.mem_singleton] at h
          subst h
          exact Or.inr (List.mem_cons_self _ _)
      · exact Or.inr (List.mem_cons_of_mem _ h)

/-- Claim C10: a row added by the gap-fill INSERT assigns only the seven
listed columns — its `adj_close` is never assigned (stays NULL) and its
volume is 0 — whereas every row written by `saveHistoricalData` assigns
`adj_close`; imputed rows therefore differ from fetched rows in
`adj_close` as well as in volume. -/
theorem gapFill_leaves_adj_close_null (st db : Store) (fails : Row → Bool)
    (symbol : String) (data : List HistoricalData) :
    (∀ r ∈ gapFill st, r ∈ st ∨ (r.adj_close = none ∧ r.volume = 0)) ∧
    (∀ r ∈ (saveHistoricalData fails db symbol data).1,
      r ∈ db ∨ ∃ hd ∈ data, r = mkRow symbol hd ∧
        r.adj_close = some hd.AdjClose) := by
  constructor
  · intro r hr
    rcases (mem_gapFill st r).mp hr with h | ⟨p, hp, hpr⟩
    · exact Or.inl h
    · subst hpr
      exact Or.inr ⟨rfl, rfl⟩
  · intro r hr
    unfold saveHistoricalData at hr
    cases hex : execInserts fails symbol data db with
    | ok st' =>
        rw [hex] at hr
        have hst := execInserts_ok_store fails symbol data db st' hex
        subst hst
        rcases mem_foldl_upsert _ db r hr with h | h
        · exact Or.inl h
        · rw [List.mem_map] at h
          obtain ⟨hd, hhd, hmk⟩ := h
          refine Or.inr ⟨hd, hhd, hmk.symm, ?_⟩
          rw [← hmk]
          rfl
    | error e =>
        rw [hex] at hr
        exact Or.inl hr

/-- Witness for Claim C10 at concrete inputs: the imputed day-2 row of the
example has NULL `adj_close` and zero volume, and a persisted row carries
its bar's adjusted close. -/
theorem gapFill_leaves_adj_close_null_witness :
    (gapRow [day1Row, day3Row] "X" 172800 ∈ ([day1Row, day3Row] : Store) ∨
      ((gapRow [day1Row, day3Row] "X" 172800).adj_close = none ∧
        (gapRow [day1Row, day3Row] "X" 172800).volume = 0)) ∧
    (mkRow "AAPL" sampleBar ∈ ([] : Store) ∨
      ∃ hd ∈ [sampleBar], mkRow "AAPL" sampleBar = mkRow "AAPL" hd ∧
        (mkRow "AAPL" sampleBar).adj_close = some hd.AdjClose) := by
  have h := gapFill_leaves_adj_close_null [day1Row, day3Row] []
    (fun _ => false) "AAPL" [sampleBar]
  constructor
  · exact h.1 _ ((mem_gapFill _ _).mpr
      (Or.inr ⟨("X", 172800), missing_example, rfl⟩))
  · apply h.2
    show mkRow "AAPL" sampleBar ∈
      (saveHistoricalData (fun _ => false) [] "AAPL" [sampleBar]).1
    decide

/-- Witness for Claim C9 at a concrete input: with the backtest handle the
part_006 and part_007 variants produce the same stores. -/
theorem save006_targets_global_db_witness :
    (saveHistoricalData006 (fun _ => false) DBHandle.backtest "AAPL"
        [sampleStock] ⟨[], []⟩).1 =
      (saveHistoricalData007 (fun _ => false) DBHandle.backtest "AAPL"
        ([sampleStock].map StockData.toHistorical) ⟨[], []⟩).1 :=
  (save006_targets_global_db (fun _ => false) "AAPL" [sampleStock]
    ⟨[], []⟩).2.2.1 DBHandle.backtest rfl
